import Mathlib

/-!
Verification development for the microsite MCP service.

JavaScript strings are modelled as `List Char` (UTF-16 code units restricted
to the characters that actually occur); JS string helpers (`toLowerCase`,
`replace`, `split`, `includes`, ...) are translated as recursive functions on
`List Char`.  Remote HTTP effects are modelled by explicit environments that
give the outcome of each outbound call, and functions that issue calls also
return the list of calls they issued, in order.
-/

/-- JS strings as lists of characters. -/
abbrev JStr := List Char

/-- Coerce a Lean string literal to the `List Char` model. -/
def js (s : String) : JStr := s.toList

/-- ASCII lower-casing of one character, as `String.prototype.toLowerCase`
acts on the ASCII range (the only range the sources rely on). -/
def jsToLower (c : Char) : Char :=
  if 65 ≤ c.toNat ∧ c.toNat ≤ 90 then Char.ofNat (c.toNat + 32) else c

/-- ASCII upper-casing of one character, for `String.prototype.toUpperCase`. -/
def jsToUpper (c : Char) : Char :=
  if 97 ≤ c.toNat ∧ c.toNat ≤ 122 then Char.ofNat (c.toNat - 32) else c

/-- Characters matched by the regex class `\s` (ASCII portion: space, tab,
line feed, carriage return, vertical tab, form feed). -/
def isJsWhitespace (c : Char) : Bool :=
  c.toNat == 32 || c.toNat == 9 || c.toNat == 10 || c.toNat == 13 ||
  c.toNat == 11 || c.toNat == 12

/-- Characters allowed by the class `[a-z0-9-]` used in the sanitizer. -/
def isSlugChar (c : Char) : Bool :=
  (97 ≤ c.toNat && c.toNat ≤ 122) || (48 ≤ c.toNat && c.toNat ≤ 57) ||
  c.toNat == 45

/-- Replace every maximal run of whitespace by a single hyphen, as
`.replace(/\s+/g, '-')` does; the Boolean records whether the previous
character was part of a whitespace run already replaced. -/
def squashWsAux : Bool → JStr → JStr
  | _, [] => []
  | prevWs, c :: rest =>
    if isJsWhitespace c then
      (if prevWs then [] else ['-']) ++ squashWsAux true rest
    else
      c :: squashWsAux false rest

/-- Model of `.replace(/\s+/g, '-')`. -/
def squashWs (s : JStr) : JStr := squashWsAux false s

/-- Model of `.replace(/[^a-z0-9-]/g, '-')`. -/
def replaceNonSlug (s : JStr) : JStr :=
  s.map (fun c => if isSlugChar c then c else '-')

/-- Name sanitizer used by `createSite` (aem-microsite-client) and the
`aem-create-microsite` tool handler:
`siteName.toLowerCase().replace(/\s+/g, '-').replace(/[^a-z0-9-]/g, '-')`. -/
def sanitizeSiteName (s : JStr) : JStr :=
  replaceNonSlug (squashWs (s.map jsToLower))

/-- Model of `String.prototype.trim` (ASCII whitespace). -/
def jsTrim (s : JStr) : JStr :=
  ((s.dropWhile (fun c => isJsWhitespace c)).reverse.dropWhile
    (fun c => isJsWhitespace c)).reverse

-- Helper lemmas about the sanitizer.

theorem listMapId {α : Type} (l : List α) (f : α → α)
    (h : ∀ a ∈ l, f a = a) : l.map f = l := by
  induction l with
  | nil => rfl
  | cons a t ih =>
    simp only [List.map_cons, h a (List.mem_cons_self a t)]
    exact congrArg (a :: ·) (ih (fun b hb => h b (List.mem_cons_of_mem a hb)))

theorem isSlugChar_of_mem_sanitize {c : Char} {s : JStr}
    (h : c ∈ sanitizeSiteName s) : isSlugChar c = true := by
  unfold sanitizeSiteName replaceNonSlug at h
  rcases List.mem_map.mp h with ⟨a, _, rfl⟩
  by_cases ha : isSlugChar a = true
  · simp [ha]
  · rw [Bool.not_eq_true] at ha
    simp only [ha, Bool.false_eq_true, if_false]
    decide

theorem jsToLower_of_slug {c : Char} (h : isSlugChar c = true) :
    jsToLower c = c := by
  unfold isSlugChar at h
  unfold jsToLower
  simp only [Bool.or_eq_true, Bool.and_eq_true, decide_eq_true_eq, beq_iff_eq] at h
  have hn : ¬ (65 ≤ c.toNat ∧ c.toNat ≤ 90) := by omega
  simp [hn]

theorem not_ws_of_slug {c : Char} (h : isSlugChar c = true) :
    isJsWhitespace c = false := by
  unfold isSlugChar at h
  rw [Bool.eq_false_iff]
  intro hw
  unfold isJsWhitespace at hw
  simp only [Bool.or_eq_true, Bool.and_eq_true, decide_eq_true_eq, beq_iff_eq] at h hw
  omega

theorem squashWsAux_of_no_ws (b : Bool) (s : JStr)
    (h : ∀ c ∈ s, isJsWhitespace c = false) :
    squashWsAux b s = s := by
  induction s generalizing b with
  | nil => rfl
  | cons c rest ih =>
    have hc := h c (List.mem_cons_self c rest)
    simp only [squashWsAux, hc]
    simp only [Bool.false_eq_true, if_false]
    exact congrArg (c :: ·) (ih false (fun d hd => h d (List.mem_cons_of_mem c hd)))

theorem sanitize_fixes_slug {s : JStr}
    (h : ∀ c ∈ s, isSlugChar c = true) : sanitizeSiteName s = s := by
  unfold sanitizeSiteName
  have hlow : s.map jsToLower = s :=
    listMapId s jsToLower (fun c hc => jsToLower_of_slug (h c hc))
  rw [hlow]
  have hsq : squashWs s = s :=
    squashWsAux_of_no_ws false s (fun c hc => not_ws_of_slug (h c hc))
  rw [show squashWs s = squashWsAux false s from rfl] at hsq
  unfold squashWs
  rw [hsq]
  unfold replaceNonSlug
  exact listMapId s _ (fun c hc => by simp [h c hc])

theorem squashWsAux_ne_nil (c : Char) (rest : JStr) :
    squashWsAux false (c :: rest) ≠ [] := by
  by_cases h : isJsWhitespace c <;> simp [squashWsAux, h]

theorem sanitize_ne_nil {s : JStr} (h : s ≠ []) : sanitizeSiteName s ≠ [] := by
  unfold sanitizeSiteName replaceNonSlug
  intro hmap
  rcases s with _ | ⟨c, rest⟩
  · exact h rfl
  · have := List.map_eq_nil_iff.mp hmap
    exact squashWsAux_ne_nil (jsToLower c) (rest.map jsToLower) (by simpa [squashWs] using this)

/-- Claim C3: the site-name sanitizer is idempotent, and on any input that is
non-empty after trimming its output is non-empty and drawn entirely from the
character class `[a-z0-9-]` (i.e. it matches `^[a-z0-9-]+$`). -/
theorem sanitizeSiteName_idem_and_slug (s : JStr) :
    sanitizeSiteName (sanitizeSiteName s) = sanitizeSiteName s ∧
    (jsTrim s ≠ [] →
      sanitizeSiteName s ≠ [] ∧ ∀ c ∈ sanitizeSiteName s, isSlugChar c = true) := by
  constructor
  · exact sanitize_fixes_slug (fun c hc => isSlugChar_of_mem_sanitize hc)
  · intro htrim
    have hs : s ≠ [] := by
      intro h
      subst h
      exact htrim rfl
    exact ⟨sanitize_ne_nil hs, fun c hc => isSlugChar_of_mem_sanitize hc⟩

/-- Witness for C3 at the concrete input `"My Awesome Site!"`. -/
theorem sanitizeSiteName_idem_and_slug_witness :
    sanitizeSiteName (sanitizeSiteName (js "My Awesome Site!")) =
      sanitizeSiteName (js "My Awesome Site!") ∧
    sanitizeSiteName (js "My Awesome Site!") ≠ [] := by
  have h := sanitizeSiteName_idem_and_slug (js "My Awesome Site!")
  exact ⟨h.1, (h.2 (by decide)).1⟩

/-!
QueryBuilder value escaping (aem-asset-client.js).
-/

/-- Characters escaped by `escapeGlobValue`, the class of
`/[\\*?\[\]{}]/g`: backslash (92), star (42), question mark (63),
open bracket (91), close bracket (93), open brace (123), close brace (125). -/
def isGlobSpecial (c : Char) : Bool :=
  c.toNat == 92 || c.toNat == 42 || c.toNat == 63 || c.toNat == 91 ||
  c.toNat == 93 || c.toNat == 123 || c.toNat == 125

/-- Characters escaped by `escapeLikeValue`, the class of `/[\\%_]/g`:
backslash (92), percent (37), underscore (95). -/
def isLikeSpecial (c : Char) : Bool :=
  c.toNat == 92 || c.toNat == 37 || c.toNat == 95

/-- Model of `escapeGlobValue`: replace each character of the glob class by a
backslash followed by that character (`'\\$&'`), all others unchanged. -/
def escapeGlobValue : JStr → JStr
  | [] => []
  | c :: rest =>
    if isGlobSpecial c then '\\' :: c :: escapeGlobValue rest
    else c :: escapeGlobValue rest

/-- Model of `escapeLikeValue`: replace each character of the LIKE class by a
backslash followed by that character, all others unchanged. -/
def escapeLikeValue : JStr → JStr
  | [] => []
  | c :: rest =>
    if isLikeSpecial c then '\\' :: c :: escapeLikeValue rest
    else c :: escapeLikeValue rest

theorem escapeGlobValue_of_plain {s : JStr}
    (h : ∀ c ∈ s, isGlobSpecial c = false) : escapeGlobValue s = s := by
  induction s with
  | nil => rfl
  | cons c rest ih =>
    simp only [escapeGlobValue, h c (List.mem_cons_self c rest),
      Bool.false_eq_true, if_false]
    exact congrArg (c :: ·) (ih (fun d hd => h d (List.mem_cons_of_mem c hd)))

theorem escapeLikeValue_of_plain {s : JStr}
    (h : ∀ c ∈ s, isLikeSpecial c = false) : escapeLikeValue s = s := by
  induction s with
  | nil => rfl
  | cons c rest ih =>
    simp only [escapeLikeValue, h c (List.mem_cons_self c rest),
      Bool.false_eq_true, if_false]
    exact congrArg (c :: ·) (ih (fun d hd => h d (List.mem_cons_of_mem c hd)))

/-- Claim C6: the two escaping functions are independent and each escapes
exactly its own alphabet.  A single character is modified by the glob escaper
precisely when it is one of `\\ * ? [ ] ( braces )`, and by the LIKE escaper
precisely when it is one of `\\ % _`; strings containing none of the relevant
characters pass through unchanged; `"50%_off"` LIKE-escapes to `"50\\%\\_off"`
while glob-escaping leaves it unchanged, and `"a[1].png"` glob-escapes to
`"a\\[1\\].png"` while LIKE-escaping leaves it unchanged. -/
theorem escaping_alphabets_independent :
    (∀ c : Char, (escapeGlobValue [c] ≠ [c] ↔ isGlobSpecial c = true) ∧
      (escapeLikeValue [c] ≠ [c] ↔ isLikeSpecial c = true)) ∧
    (∀ s : JStr, (∀ c ∈ s, isGlobSpecial c = false) → escapeGlobValue s = s) ∧
    (∀ s : JStr, (∀ c ∈ s, isLikeSpecial c = false) → escapeLikeValue s = s) ∧
    escapeLikeValue (js "50%_off") = js "50\\%\\_off" ∧
    escapeGlobValue (js "50%_off") = js "50%_off" ∧
    escapeGlobValue (js "a[1].png") = js "a\\[1\\].png" ∧
    escapeLikeValue (js "a[1].png") = js "a[1].png" := by
  refine ⟨fun c => ⟨?_, ?_⟩, fun s h => escapeGlobValue_of_plain h,
    fun s h => escapeLikeValue_of_plain h, by decide, by decide, by decide, by decide⟩
  · by_cases hc : isGlobSpecial c = true
    · simp [escapeGlobValue, hc]
    · rw [Bool.not_eq_true] at hc
      simp [escapeGlobValue, hc]
  · by_cases hc : isLikeSpecial c = true
    · simp [escapeLikeValue, hc]
    · rw [Bool.not_eq_true] at hc
      simp [escapeLikeValue, hc]

/-- Witness for C6: the universally quantified parts applied at concrete
inputs. -/
theorem escaping_alphabets_independent_witness :
    escapeGlobValue (js "summer sale 2024") = js "summer sale 2024" ∧
    escapeLikeValue (js "hero-banner.jpg") = js "hero-banner.jpg" := by
  exact ⟨escaping_alphabets_independent.2.1 (js "summer sale 2024") (by decide),
    escaping_alphabets_independent.2.2.1 (js "hero-banner.jpg") (by decide)⟩

/-!
Credential resolver `getAEMCredentials` (tools.js).
-/

/-- Prefix test on character lists. -/
def startsWithList : JStr → JStr → Bool
  | _, [] => true
  | [], _ :: _ => false
  | c :: s, p :: ps => c == p && startsWithList s ps

/-- Model of `String.prototype.includes`: substring containment. -/
def hasSub : JStr → JStr → Bool
  | s, pat =>
    match s with
    | [] => pat.isEmpty
    | _ :: rest => startsWithList s pat || hasSub rest pat

/-- JS truthiness of an optional string value: `undefined` and the empty
string are falsy. -/
def jsTruthy : Option JStr → Bool
  | none => false
  | some s => !s.isEmpty

/-- Model of the JS `a || b` fallback chain on optional string values. -/
def jsOr (a b : Option JStr) : Option JStr :=
  if jsTruthy a then a else b

/-- Tool parameters consumed by `getAEMCredentials`. -/
structure AEMParams where
  authorUrl : Option JStr
  server : Option JStr
  token : Option JStr
  username : Option JStr
  password : Option JStr

/-- Process environment consumed by `getAEMCredentials`. -/
structure AEMEnv where
  aemAuthorUrl : Option JStr
  aemToken : Option JStr
  aemUsername : Option JStr
  aemPassword : Option JStr

/-- Result of `getAEMCredentials`: either a resolved author URL with exactly
one credential scheme, or the structured authentication error whose message
enumerates the listed environment variable names. -/
inductive AuthResult
  | basicAuth (authorUrl username password : JStr)
  | bearer (authorUrl token : JStr)
  | authError (missingEnvVars : List JStr)
  deriving DecidableEq

/-- Hard-coded default author URL from the source. -/
def defaultAuthorUrl : JStr := js "https://author-p18253-e46622.adobeaemcloud.com"

/-- Model of `getAEMCredentials(params)` (tools.js lines 33-82): resolve the
author URL through `params.authorUrl || params.server || AEM_AUTHOR_URL ||
default`, resolve token/username/password through parameter-then-environment
fallbacks, prefer username/password when both are set and the URL contains
`adobeaemcloud.com` or no token resolved, otherwise use the bearer token,
otherwise report the environment variables among AEM_TOKEN / AEM_USERNAME /
AEM_PASSWORD that are unset. -/
def getAEMCredentials (p : AEMParams) (e : AEMEnv) : AuthResult :=
  let finalAuthorUrl :=
    (jsOr (jsOr (jsOr p.authorUrl p.server) e.aemAuthorUrl) (some defaultAuthorUrl)).getD []
  let finalToken := jsOr p.token e.aemToken
  let finalUsername := jsOr p.username e.aemUsername
  let finalPassword := jsOr p.password e.aemPassword
  let isAEMCloudService := hasSub finalAuthorUrl (js "adobeaemcloud.com")
  if jsTruthy finalUsername && jsTruthy finalPassword &&
      (isAEMCloudService || !jsTruthy finalToken) then
    .basicAuth finalAuthorUrl (finalUsername.getD []) (finalPassword.getD [])
  else if jsTruthy finalToken then
    .bearer finalAuthorUrl (finalToken.getD [])
  else
    .authError
      ((if !jsTruthy e.aemToken then [js "AEM_TOKEN"] else []) ++
       (if !jsTruthy e.aemUsername then [js "AEM_USERNAME"] else []) ++
       (if !jsTruthy e.aemPassword then [js "AEM_PASSWORD"] else []))

/-- Resolved endpoint, exposed for stating the claim. -/
def resolvedAuthorUrl (p : AEMParams) (e : AEMEnv) : JStr :=
  (jsOr (jsOr (jsOr p.authorUrl p.server) e.aemAuthorUrl) (some defaultAuthorUrl)).getD []

/-- Claim C2: the credential scheme selected by the resolver.  Basic auth is
selected exactly when username and password both resolve truthy and (the
resolved endpoint contains `adobeaemcloud.com`, or no token resolves);
otherwise a resolved token selects bearer; otherwise the structured error
lists exactly those of AEM_TOKEN / AEM_USERNAME / AEM_PASSWORD that are unset
in the environment. -/
theorem getAEMCredentials_scheme (p : AEMParams) (e : AEMEnv) :
    (jsTruthy (jsOr p.username e.aemUsername) = true →
     jsTruthy (jsOr p.password e.aemPassword) = true →
     (hasSub (resolvedAuthorUrl p e) (js "adobeaemcloud.com") = true ∨
      jsTruthy (jsOr p.token e.aemToken) = false) →
     getAEMCredentials p e =
       .basicAuth (resolvedAuthorUrl p e)
         ((jsOr p.username e.aemUsername).getD [])
         ((jsOr p.password e.aemPassword).getD [])) ∧
    (¬ (jsTruthy (jsOr p.username e.aemUsername) = true ∧
        jsTruthy (jsOr p.password e.aemPassword) = true ∧
        (hasSub (resolvedAuthorUrl p e) (js "adobeaemcloud.com") = true ∨
         jsTruthy (jsOr p.token e.aemToken) = false)) →
     jsTruthy (jsOr p.token e.aemToken) = true →
     getAEMCredentials p e =
       .bearer (resolvedAuthorUrl p e) ((jsOr p.token e.aemToken).getD [])) ∧
    (jsTruthy (jsOr p.token e.aemToken) = false →
     ¬ (jsTruthy (jsOr p.username e.aemUsername) = true ∧
        jsTruthy (jsOr p.password e.aemPassword) = true) →
     getAEMCredentials p e =
       .authError (([js "AEM_TOKEN", js "AEM_USERNAME", js "AEM_PASSWORD"]).filter
         (fun v => decide (¬ ((v = js "AEM_TOKEN" → jsTruthy e.aemToken = true) ∧
                              (v = js "AEM_USERNAME" → jsTruthy e.aemUsername = true) ∧
                              (v = js "AEM_PASSWORD" → jsTruthy e.aemPassword = true)))))) := by
  unfold getAEMCredentials resolvedAuthorUrl
  refine ⟨fun hu hpw hcloud => ?_, fun hneg htk => ?_, fun htk hup => ?_⟩
  · have : (jsTruthy (jsOr p.username e.aemUsername) &&
        jsTruthy (jsOr p.password e.aemPassword) &&
        (hasSub ((jsOr (jsOr (jsOr p.authorUrl p.server) e.aemAuthorUrl)
            (some defaultAuthorUrl)).getD []) (js "adobeaemcloud.com") ||
          !jsTruthy (jsOr p.token e.aemToken))) = true := by
      rcases hcloud with h | h <;> simp [hu, hpw, h]
    simp only [this, if_true]
  · have hcond : (jsTruthy (jsOr p.username e.aemUsername) &&
        jsTruthy (jsOr p.password e.aemPassword) &&
        (hasSub ((jsOr (jsOr (jsOr p.authorUrl p.server) e.aemAuthorUrl)
            (some defaultAuthorUrl)).getD []) (js "adobeaemcloud.com") ||
          !jsTruthy (jsOr p.token e.aemToken))) = false := by
      rw [Bool.eq_false_iff]
      intro hb
      simp only [Bool.and_eq_true, Bool.or_eq_true, Bool.not_eq_true'] at hb
      exact hneg ⟨hb.1.1, hb.1.2, hb.2⟩
    simp only [hcond, Bool.false_eq_true, if_false]
    simp only [htk, if_true]
  · have hcond : (jsTruthy (jsOr p.username e.aemUsername) &&
        jsTruthy (jsOr p.password e.aemPassword) &&
        (hasSub ((jsOr (jsOr (jsOr p.authorUrl p.server) e.aemAuthorUrl)
            (some defaultAuthorUrl)).getD []) (js "adobeaemcloud.com") ||
          !jsTruthy (jsOr p.token e.aemToken))) = false := by
      rw [Bool.eq_false_iff]
      intro hb
      simp only [Bool.and_eq_true, Bool.or_eq_true, Bool.not_eq_true'] at hb
      exact hup ⟨hb.1.1, hb.1.2⟩
    simp only [hcond, Bool.false_eq_true, if_false, htk]
    rcases hu : jsTruthy e.aemUsername <;> rcases hpw : jsTruthy e.aemPassword <;>
      rcases htke : jsTruthy e.aemToken <;>
      simp_all [List.filter, js]

/-- Witness for C2: with username, password and token all supplied against a
managed-cloud endpoint, basic auth wins; the hypotheses of each branch are
discharged at concrete inputs. -/
theorem getAEMCredentials_scheme_witness :
    getAEMCredentials
      ⟨some (js "https://author-x.adobeaemcloud.com"), none, some (js "tok"),
        some (js "admin"), some (js "pw")⟩
      ⟨none, none, none, none⟩ =
      .basicAuth (js "https://author-x.adobeaemcloud.com") (js "admin") (js "pw") ∧
    getAEMCredentials ⟨none, none, some (js "tok"), none, none⟩
      ⟨some (js "https://example.org"), none, none, none⟩ =
      .bearer (js "https://example.org") (js "tok") ∧
    getAEMCredentials ⟨none, none, none, none, none⟩
      ⟨none, none, some (js "admin"), none⟩ =
      .authError [js "AEM_TOKEN", js "AEM_PASSWORD"] := by
  refine ⟨?_, ?_, ?_⟩
  · have h := (getAEMCredentials_scheme
      (AEMParams.mk (some (js "https://author-x.adobeaemcloud.com")) none
        (some (js "tok")) (some (js "admin")) (some (js "pw")))
      (AEMEnv.mk none none none none)).1
      (by decide) (by decide) (Or.inl (by decide))
    exact h.trans (by decide)
  · have h := (getAEMCredentials_scheme
      (AEMParams.mk none none (some (js "tok")) none none)
      (AEMEnv.mk (some (js "https://example.org")) none none none)).2.1
      (by decide) (by decide)
    exact h.trans (by decide)
  · have h := (getAEMCredentials_scheme
      (AEMParams.mk none none none none none)
      (AEMEnv.mk none none (some (js "admin")) none)).2.2
      (by decide) (by decide)
    exact h.trans (by decide)

/-!
Search-and-replace over asset metadata (aem-asset-client.js,
`replaceValuesInMetadata` and the `searchValue` block of `searchAssets`).
-/

/-- Case-insensitive prefix test, as matching a literal (regex-escaped)
pattern compiled with the `i` flag behaves on the ASCII range. -/
def ciPrefix : JStr → JStr → Bool
  | _, [] => true
  | [], _ :: _ => false
  | c :: s, p :: ps => (jsToLower c == jsToLower p) && ciPrefix s ps

/-- Fueled scanner for `String.prototype.replace` with a global,
case-insensitive, literal pattern (the pattern is passed through
`escapeRegex`, so it matches itself literally): scan left to right, replace
each non-overlapping case-insensitive occurrence of `sv` by `rv`, and resume
after the replaced portion.  An empty pattern matches the empty string at
every position, as the JS regex does.  One unit of fuel is spent per consumed
subject character, so fuel `s.length` always suffices; on (unreachable) fuel
exhaustion the remaining subject is returned unchanged. -/
def replaceGIAux (sv rv : JStr) : Nat → JStr → JStr
  | _, [] => if sv.isEmpty then rv else []
  | 0, s => s
  | fuel + 1, c :: rest =>
    if sv.isEmpty then rv ++ c :: replaceGIAux sv rv fuel rest
    else if ciPrefix (c :: rest) sv then
      rv ++ replaceGIAux sv rv fuel (rest.drop (sv.length - 1))
    else c :: replaceGIAux sv rv fuel rest

/-- Model of `value.replace(new RegExp(this.escapeRegex(searchValue), 'gi'),
replaceValue)` for replacement strings without `$` substitution patterns. -/
def replaceGI (sv rv s : JStr) : JStr := replaceGIAux sv rv s.length s

/-- JSON values, as delivered by the metadata endpoint. -/
inductive JValue where
  | str (s : JStr)
  | num (n : Int)
  | boolean (b : Bool)
  | null
  | arr (items : List JValue)
  | obj (fields : List (JStr × JValue))

/-- Treatment of one array element inside `replaceValuesInMetadata`'s
`Array.isArray` branch: `value.map(item => typeof item === 'string' ?
item.replace(...) : item)` — string elements are rewritten, every other
element (numbers, booleans, nulls, nested arrays and nested objects) is
returned as-is. -/
def replaceArrayItem (sv rv : JStr) : JValue → JValue
  | .str s => .str (replaceGI sv rv s)
  | v => v

/-- Treatment of one object entry value inside `replaceValuesInMetadata`'s
`for (const [key, value] of Object.entries(metadata))` loop: strings are
rewritten, arrays are mapped element-wise by `replaceArrayItem`, non-null
objects are recursed into (one fuel unit per object-nesting level; any fuel
at least the nesting depth of the value gives the JS behavior, and on
(depth-exhausted) fuel 0 an object entry is returned unchanged), and all
other values are kept as-is. -/
def replaceEntryValue (sv rv : JStr) : Nat → JValue → JValue
  | _, .str s => .str (replaceGI sv rv s)
  | _, .arr items => .arr (items.map (replaceArrayItem sv rv))
  | fuel + 1, .obj fields =>
    .obj (fields.map (fun kv => (kv.1, replaceEntryValue sv rv fuel kv.2)))
  | _, v => v

/-- Model of `replaceValuesInMetadata(metadata, searchValue, replaceValue)`:
a non-object argument (string, number, boolean, null) is returned unchanged
by the `typeof` guard; an object has each entry value processed by
`replaceEntryValue`.  A (never actually passed) top-level array would be
enumerated by `Object.entries` into index-keyed entries of a fresh plain
object, which is mirrored here. -/
def replaceValuesInMetadata (sv rv : JStr) (fuel : Nat) : JValue → JValue
  | .obj fields =>
    .obj (fields.map (fun kv => (kv.1, replaceEntryValue sv rv fuel kv.2)))
  | .arr items =>
    .obj (((List.range items.length).zip items).map
      (fun p => ((toString p.1).toList, replaceEntryValue sv rv fuel p.2)))
  | v => v

/-- First value for a key in an object's field list (JS property access). -/
def lookupField : List (JStr × JValue) → JStr → Option JValue
  | [], _ => none
  | (k, v) :: rest, key => if k = key then some v else lookupField rest key

/-- JS truthiness of a JSON value: empty strings, zero, `false` and `null`
are falsy; arrays and objects are always truthy. -/
def jvalTruthy : JValue → Bool
  | .str s => !s.isEmpty
  | .num n => n != 0
  | .boolean b => b
  | .null => false
  | .arr _ => true
  | .obj _ => true

/-- Model of the title refresh after replacement in `searchAssets`
(lines 184-187): `if (assetMetadata['dc:title']) assetTitle =
assetMetadata['dc:title']` — the displayed title is replaced by the
replaced metadata's `dc:title` only when that value is truthy. -/
def refreshedAssetTitle (replaced : JValue) (currentTitle : JValue) : JValue :=
  match replaced with
  | .obj fields =>
    match lookupField fields (js "dc:title") with
    | some v => if jvalTruthy v then v else currentTitle
    | none => currentTitle
  | _ => currentTitle

theorem replaceEntryValue_str (sv rv : JStr) (fuel : Nat) (s : JStr) :
    replaceEntryValue sv rv fuel (.str s) = .str (replaceGI sv rv s) := by
  cases fuel <;> rfl

theorem replaceEntryValue_arr (sv rv : JStr) (fuel : Nat) (items : List JValue) :
    replaceEntryValue sv rv fuel (.arr items) =
      .arr (items.map (replaceArrayItem sv rv)) := by
  cases fuel <;> rfl

theorem replaceEntryValue_obj_succ (sv rv : JStr) (fuel : Nat)
    (fields : List (JStr × JValue)) :
    replaceEntryValue sv rv (fuel + 1) (.obj fields) =
      .obj (fields.map (fun kv => (kv.1, replaceEntryValue sv rv fuel kv.2))) := rfl

/-- Counterexample to C5 as stated: a string leaf that sits inside an object
nested inside an array is not rewritten at all — the whole metadata value
passes through unchanged even though the leaf `"Ford"` matches the search
value and would be rewritten to `"Acme"` by the replacement; and a replaced
`dc:title` that is present but empty does not refresh the displayed title. -/
theorem replaceValuesInMetadata_array_object_counterexample :
    replaceValuesInMetadata (js "ford") (js "Acme") 5
      (.obj [(js "related", .arr [.obj [(js "dc:title", .str (js "Ford"))]])]) =
      .obj [(js "related", .arr [.obj [(js "dc:title", .str (js "Ford"))]])] ∧
    replaceGI (js "ford") (js "Acme") (js "Ford") = js "Acme" ∧
    js "Acme" ≠ js "Ford" ∧
    refreshedAssetTitle (.obj [(js "dc:title", .str (js ""))])
      (.str (js "Ford")) = .str (js "Ford") := by
  exact ⟨rfl, by decide, by decide, rfl⟩

/-- Claim C5 (amended): with a search value supplied, the example
`dc:title: "Ford Focus, ford van"` is rewritten (globally and
case-insensitively) to `"Acme Focus, Acme van"`; string values of object
fields are rewritten at the top level and through nested objects; array
fields are mapped element-wise, rewriting exactly their string elements; and
the displayed title is refreshed from the replaced `dc:title` exactly when
that value is truthy. -/
theorem replaceValuesInMetadata_amended (sv rv : JStr) (fuel : Nat)
    (fields : List (JStr × JValue)) :
    replaceValuesInMetadata (js "ford") (js "Acme") 5
      (.obj [(js "dc:title", .str (js "Ford Focus, ford van"))]) =
      .obj [(js "dc:title", .str (js "Acme Focus, Acme van"))] ∧
    replaceValuesInMetadata sv rv fuel (.obj fields) =
      .obj (fields.map (fun kv => (kv.1, replaceEntryValue sv rv fuel kv.2))) ∧
    (∀ k s, (k, JValue.str s) ∈ fields →
      (k, JValue.str (replaceGI sv rv s)) ∈
        fields.map (fun kv => (kv.1, replaceEntryValue sv rv fuel kv.2))) ∧
    (∀ k items, (k, JValue.arr items) ∈ fields →
      (k, JValue.arr (items.map (replaceArrayItem sv rv))) ∈
        fields.map (fun kv => (kv.1, replaceEntryValue sv rv fuel kv.2))) ∧
    (∀ k1 k2 gs s, (k1, JValue.obj gs) ∈ fields → (k2, JValue.str s) ∈ gs →
      (k1, JValue.obj (gs.map (fun kv => (kv.1, replaceEntryValue sv rv fuel kv.2)))) ∈
        fields.map (fun kv => (kv.1, replaceEntryValue sv rv (fuel + 1) kv.2)) ∧
      (k2, JValue.str (replaceGI sv rv s)) ∈
        gs.map (fun kv => (kv.1, replaceEntryValue sv rv fuel kv.2))) ∧
    (∀ ffields old v, lookupField ffields (js "dc:title") = some v →
      jvalTruthy v = true → refreshedAssetTitle (.obj ffields) old = v) ∧
    (∀ ffields old, lookupField ffields (js "dc:title") = none →
      refreshedAssetTitle (.obj ffields) old = old) := by
  refine ⟨rfl, rfl, ?_, ?_, ?_, ?_, ?_⟩
  · intro k s hmem
    exact List.mem_map.mpr ⟨(k, .str s), hmem, by simp [replaceEntryValue_str]⟩
  · intro k items hmem
    exact List.mem_map.mpr ⟨(k, .arr items), hmem, by simp [replaceEntryValue_arr]⟩
  · intro k1 k2 gs s hmem1 hmem2
    constructor
    · exact List.mem_map.mpr ⟨(k1, .obj gs), hmem1, by simp [replaceEntryValue_obj_succ]⟩
    · exact List.mem_map.mpr ⟨(k2, .str s), hmem2, by simp [replaceEntryValue_str]⟩
  · intro ffields old v hlook htr
    simp [refreshedAssetTitle, hlook, htr]
  · intro ffields old hlook
    simp [refreshedAssetTitle, hlook]

/-- Witness for C5 (amended) at a concrete two-level metadata object. -/
theorem replaceValuesInMetadata_amended_witness :
    (js "brand", JValue.str (replaceGI (js "ford") (js "") (js "Ford")))
      ∈ ([(js "brand", JValue.str (js "Ford"))]).map
        (fun kv => (kv.1, replaceEntryValue (js "ford") (js "") 3 kv.2)) ∧
    refreshedAssetTitle (.obj [(js "dc:title", .str (js "Acme van"))])
      (.str (js "Ford van")) = .str (js "Acme van") := by
  constructor
  · exact (replaceValuesInMetadata_amended (js "ford") (js "") 3
      [(js "brand", JValue.str (js "Ford"))]).2.2.1 (js "brand") (js "Ford")
      (List.mem_cons_self _ _)
  · exact (replaceValuesInMetadata_amended (js "ford") (js "") 3
      [(js "brand", JValue.str (js "Ford"))]).2.2.2.2.2.1
      [(js "dc:title", .str (js "Acme van"))] (.str (js "Ford van"))
      (.str (js "Acme van")) rfl (by decide)

/-!
Overwrite flow of the `aem-create-microsite` tool handler (tools.js lines
316-360) and `deleteSite` (aem-microsite-client.js).
-/

/-- Calls observable in the overwrite phase of the tool handler. -/
inductive OwEvent where
  | deleteSiteCall
  | directDeleteCall
  | settleDelay (ms : Nat)
  | createMicrositeCall
  deriving DecidableEq

/-- Outcomes of the remote calls the overwrite phase can issue:
`axiosDeleteOutcome` is the raw axios DELETE inside `deleteSite` (`.error`
carries the transport error message), and `directDeleteOutcome` is the
low-level fallback DELETE issued with `validateStatus: status < 500` (`.ok`
carries the resolved HTTP status, `.error` a rejection with optional response
status and message). -/
structure OverwriteEnv where
  axiosDeleteOutcome : Except JStr Unit
  directDeleteOutcome : Except (Option Nat × JStr) Nat

/-- Model of `deleteSite(sitePath)`: one DELETE call; failures are re-thrown
as `Failed to delete site: <message>`. -/
def deleteSite (raw : Except JStr Unit) : Except JStr Unit :=
  match raw with
  | .ok _ => .ok ()
  | .error m => .error (js "Failed to delete site: " ++ m)

/-- Overwrite deletion phase of the tool handler: try `deleteSite` first; if
it throws, fall back to one direct DELETE; compute the `deleted` flag exactly
as the handler does (success statuses 200/204, no-op status 404, or a
throwing fallback whose combined errors indicate not-found). -/
def overwriteDeletePhase (env : OverwriteEnv) : Bool × List OwEvent :=
  match deleteSite env.axiosDeleteOutcome with
  | .ok _ => (true, [.deleteSiteCall])
  | .error dmsg =>
    match env.directDeleteOutcome with
    | .ok status =>
      if status == 200 || status == 204 then (true, [.deleteSiteCall, .directDeleteCall])
      else if status == 404 then (true, [.deleteSiteCall, .directDeleteCall])
      else (false, [.deleteSiteCall, .directDeleteCall])
    | .error e =>
      let isNotFound := hasSub dmsg (js "404") || hasSub dmsg (js "not found") ||
        e.1 == some 404
      (isNotFound, [.deleteSiteCall, .directDeleteCall])

/-- Calls issued by the `aem-create-microsite` handler around creation: with
`overwrite=true` the delete phase runs, then a 500 ms settle delay exactly
when the `deleted` flag is set, then the single `createMicrosite` call; with
`overwrite=false` only the create call is issued. -/
def aemCreateMicrositeCalls (overwrite : Bool) (env : OverwriteEnv) : List OwEvent :=
  if overwrite then
    (overwriteDeletePhase env).2 ++
      (if (overwriteDeletePhase env).1 then [.settleDelay 500] else []) ++
      [.createMicrositeCall]
  else [.createMicrositeCall]

/-- Claim C1: with `overwrite=true`, the handler makes exactly one structured
delete attempt, makes the low-level direct DELETE exactly when the structured
delete fails, waits the fixed 500 ms settle delay exactly when the delete
succeeded or was a no-op (store statuses 200/204, a 404, or a throwing
fallback whose errors indicate not-found), performs exactly one create
attempt, and the create comes last. -/
theorem aemCreateMicrosite_overwrite_once (env : OverwriteEnv) :
    (aemCreateMicrositeCalls true env).count .deleteSiteCall = 1 ∧
    (aemCreateMicrositeCalls true env).count .directDeleteCall =
      (match env.axiosDeleteOutcome with | .ok _ => 0 | .error _ => 1) ∧
    (aemCreateMicrositeCalls true env).count .createMicrositeCall = 1 ∧
    (aemCreateMicrositeCalls true env).count (.settleDelay 500) =
      (match env.axiosDeleteOutcome with
       | .ok _ => 1
       | .error m =>
         match env.directDeleteOutcome with
         | .ok status => if status = 200 ∨ status = 204 ∨ status = 404 then 1 else 0
         | .error e =>
           if hasSub (js "Failed to delete site: " ++ m) (js "404") = true ∨
              hasSub (js "Failed to delete site: " ++ m) (js "not found") = true ∨
              e.1 = some 404 then 1 else 0) ∧
    (aemCreateMicrositeCalls true env).getLast? = some .createMicrositeCall := by
  obtain ⟨raw, direct⟩ := env
  cases raw with
  | ok u =>
    refine ⟨?_, ?_, ?_, ?_, ?_⟩ <;>
      simp [aemCreateMicrositeCalls, overwriteDeletePhase, deleteSite, List.count_cons]
  | error m =>
    cases direct with
    | ok s =>
      by_cases h1 : (s == 200 || s == 204) = true
      · have hs : s = 200 ∨ s = 204 ∨ s = 404 := by
          simp only [Bool.or_eq_true, beq_iff_eq] at h1
          tauto
        refine ⟨?_, ?_, ?_, ?_, ?_⟩ <;>
          simp [aemCreateMicrositeCalls, overwriteDeletePhase, deleteSite, h1,
            List.count_cons, hs]
      · by_cases h2 : (s == 404) = true
        · have hs : s = 200 ∨ s = 204 ∨ s = 404 := by
            simp only [beq_iff_eq] at h2
            tauto
          refine ⟨?_, ?_, ?_, ?_, ?_⟩ <;>
            simp [aemCreateMicrositeCalls, overwriteDeletePhase, deleteSite, h1, h2,
              List.count_cons, hs]
        · have hs : ¬ (s = 200 ∨ s = 204 ∨ s = 404) := by
            simp only [Bool.or_eq_true, beq_iff_eq] at h1 h2
            tauto
          refine ⟨?_, ?_, ?_, ?_, ?_⟩ <;>
            simp [aemCreateMicrositeCalls, overwriteDeletePhase, deleteSite, h1, h2,
              List.count_cons, hs]
    | error e =>
      by_cases hnf : (hasSub (js "Failed to delete site: " ++ m) (js "404") ||
          hasSub (js "Failed to delete site: " ++ m) (js "not found") ||
          e.1 == some 404) = true
      · have hp : hasSub (js "Failed to delete site: " ++ m) (js "404") = true ∨
            hasSub (js "Failed to delete site: " ++ m) (js "not found") = true ∨
            e.1 = some 404 := by
          simp only [Bool.or_eq_true, beq_iff_eq] at hnf
          tauto
        refine ⟨?_, ?_, ?_, ?_, ?_⟩ <;>
          simp [aemCreateMicrositeCalls, overwriteDeletePhase, deleteSite, hnf,
            List.count_cons, hp]
      · have hp : ¬ (hasSub (js "Failed to delete site: " ++ m) (js "404") = true ∨
            hasSub (js "Failed to delete site: " ++ m) (js "not found") = true ∨
            e.1 = some 404) := by
          simp only [Bool.or_eq_true, beq_iff_eq] at hnf
          tauto
        refine ⟨?_, ?_, ?_, ?_, ?_⟩ <;>
          simp [aemCreateMicrositeCalls, overwriteDeletePhase, deleteSite, hnf,
            List.count_cons, hp]

/-!
Site provisioning orchestrator (aem-microsite-client.js: `createSite`,
`createPage`, `createMicrosite`).  The form-encoded node payloads only affect
the body of each POST, so remote calls are modelled as path-keyed events
whose outcomes are supplied by an environment.
-/

/-- Remote repository calls made by the orchestrator. -/
inductive MsEvent where
  | postCreate (path : JStr)
  | deleteNode (path : JStr)
  deriving DecidableEq

/-- Environment giving the outcome of each provisioning POST by target path
(`.error` carries the transport error message). -/
structure MicrositeEnv where
  authorUrl : JStr
  sitePostOutcome : JStr → Except JStr Unit
  pagePostOutcome : JStr → Except JStr Unit

/-- Configuration of `createSite` (language/country only enter the form
payload, which the event model abstracts). -/
structure SiteConfig where
  siteName : Option JStr
  siteTitle : Option JStr
  templatePath : Option JStr
  parentPath : Option JStr

/-- Successful result of `createSite`. -/
structure SiteResult where
  success : Bool
  sitePath : JStr
  siteName : JStr
  siteTitle : JStr
  editorUrl : JStr
  deriving DecidableEq

/-- Derivation of a site name from the title:
`siteTitle.toLowerCase().replace(/\s+/g, '-')`. -/
def deriveSiteName (t : JStr) : JStr := squashWs (t.map jsToLower)

/-- Decimal rendering of a count for result messages. -/
def natToJStr (n : Nat) : JStr := (toString n).toList

/-- Name used by `createSite`: the provided `siteName` when truthy, otherwise
derived from the title. -/
def createSiteName (cfg : SiteConfig) : JStr :=
  if jsTruthy cfg.siteName then cfg.siteName.getD []
  else deriveSiteName (cfg.siteTitle.getD [])

/-- Path targeted by `createSite`:
`parentPath + '/' + sanitizedSiteName` (parent defaulting to `/content`). -/
def createSitePath (cfg : SiteConfig) : JStr :=
  cfg.parentPath.getD (js "/content") ++ js "/" ++ sanitizeSiteName (createSiteName cfg)

/-- Model of `createSite(siteConfig)`: require a truthy `siteTitle`, derive
the name from the title when the name is falsy, sanitize it, issue one create
POST at the resolved path, and on success return the resolved result with
`success: true`; failures are rethrown as `Failed to create site: <msg>`. -/
def createSite (env : MicrositeEnv) (cfg : SiteConfig) :
    Except JStr SiteResult × List MsEvent :=
  if jsTruthy cfg.siteTitle then
    match env.sitePostOutcome (createSitePath cfg) with
    | .ok _ =>
      (.ok ⟨true, createSitePath cfg, sanitizeSiteName (createSiteName cfg),
        cfg.siteTitle.getD [],
        env.authorUrl ++ js "/editor.html" ++ createSitePath cfg ++ js ".html"⟩,
       [.postCreate (createSitePath cfg)])
    | .error msg =>
      (.error (js "Failed to create site: " ++ msg), [.postCreate (createSitePath cfg)])
  else
    (.error (js "Failed to create site: siteTitle is required"), [])

/-- Successful result of `createPage`. -/
structure PageResult where
  pagePath : JStr
  pageName : JStr
  pageTitle : JStr
  url : JStr
  deriving DecidableEq

/-- Capitalisation of the first character, as
`pageName.charAt(0).toUpperCase() + pageName.slice(1)`. -/
def capitalizeFirst : JStr → JStr
  | [] => []
  | c :: r => jsToUpper c :: r

/-- Model of `createPage(pageConfig)`: one create POST at
`sitePath + '/' + pageName`; failures are rethrown as
`Failed to create page: <msg>`. -/
def createPage (env : MicrositeEnv) (sitePath pageName pageTitle : JStr) :
    Except JStr PageResult × List MsEvent :=
  match env.pagePostOutcome (sitePath ++ js "/" ++ pageName) with
  | .ok _ =>
    (.ok ⟨sitePath ++ js "/" ++ pageName, pageName, pageTitle,
      env.authorUrl ++ js "/editor.html" ++ (sitePath ++ js "/" ++ pageName) ++ js ".html"⟩,
     [.postCreate (sitePath ++ js "/" ++ pageName)])
  | .error msg =>
    (.error (js "Failed to create page: " ++ msg),
     [.postCreate (sitePath ++ js "/" ++ pageName)])

instance : DecidableEq (Except JStr SiteResult) := fun a b =>
  match a, b with
  | .error x, .error y =>
    if h : x = y then isTrue (by rw [h]) else isFalse (by intro hc; cases hc; exact h rfl)
  | .ok x, .ok y =>
    if h : x = y then isTrue (by rw [h]) else isFalse (by intro hc; cases hc; exact h rfl)
  | .error _, .ok _ => isFalse (by intro hc; cases hc)
  | .ok _, .error _ => isFalse (by intro hc; cases hc)

/-- The page loop of `createMicrosite`: each page is attempted in input
order; a successful page is appended to `createdPages`, a failing page is
caught, logged and skipped. -/
def createPagesLoop (env : MicrositeEnv) (sitePath : JStr) :
    List JStr → List PageResult × List MsEvent
  | [] => ([], [])
  | p :: rest =>
    let r := createPage env sitePath p (capitalizeFirst p)
    let tail := createPagesLoop env sitePath rest
    match r.1 with
    | .ok pr => (pr :: tail.1, r.2 ++ tail.2)
    | .error _ => (tail.1, r.2 ++ tail.2)

/-- Result of `createMicrosite`: the spread of the site result plus the pages
actually created and a count-bearing message. -/
structure MicrositeResult where
  success : Bool
  sitePath : JStr
  siteName : JStr
  siteTitle : JStr
  editorUrl : JStr
  pages : List PageResult
  message : JStr

/-- Configuration of `createMicrosite`. -/
structure MicrositeConfig where
  siteName : Option JStr
  siteTitle : Option JStr
  templatePath : Option JStr
  parentPath : Option JStr
  pages : Option (List JStr)

/-- The site configuration `createMicrosite` passes to `createSite`, with the
name derived from the title when absent. -/
def micrositeSiteConfig (cfg : MicrositeConfig) : SiteConfig :=
  ⟨(if ¬ jsTruthy cfg.siteName ∧ jsTruthy cfg.siteTitle then
      some (deriveSiteName (cfg.siteTitle.getD [])) else cfg.siteName),
   cfg.siteTitle, cfg.templatePath, cfg.parentPath⟩

/-- Default page list of `createMicrosite`. -/
def defaultPages : List JStr := [js "main", js "about", js "contact"]

/-- Model of `createMicrosite(micrositeConfig)`: create the site root, then
attempt every page of `pages` (default `['main', 'about', 'contact']`) in
order, collecting only the pages that were created; page failures are caught
per page and never abort the call or delete anything; the result spreads the
site result (so `success` stays `true`). -/
def createMicrosite (env : MicrositeEnv) (cfg : MicrositeConfig) :
    Except JStr MicrositeResult × List MsEvent :=
  match createSite env (micrositeSiteConfig cfg) with
  | (.error m, evs) => (.error (js "Failed to create microsite: " ++ m), evs)
  | (.ok site, evs) =>
    let pr := createPagesLoop env site.sitePath (cfg.pages.getD defaultPages)
    (.ok ⟨site.success, site.sitePath, site.siteName, site.siteTitle, site.editorUrl,
      pr.1,
      js "Microsite created with " ++ natToJStr pr.1.length ++
        js " pages (structure similar to /content/demo/main.html)"⟩,
     evs ++ pr.2)

theorem createSite_ok_success {env : MicrositeEnv} {cfg : SiteConfig}
    {site : SiteResult} (h : (createSite env cfg).1 = .ok site) :
    site.success = true := by
  unfold createSite at h
  by_cases ht : jsTruthy cfg.siteTitle = true
  · simp only [ht, if_true] at h
    rcases hpost : env.sitePostOutcome (createSitePath cfg) with m | u <;>
      simp only [hpost] at h
    · cases h
    · cases h
      rfl
  · rw [Bool.not_eq_true] at ht
    simp only [ht, Bool.false_eq_true, if_false] at h
    cases h

theorem createSite_no_delete (env : MicrositeEnv) (cfg : SiteConfig) (path : JStr) :
    MsEvent.deleteNode path ∉ (createSite env cfg).2 := by
  unfold createSite
  by_cases ht : jsTruthy cfg.siteTitle = true
  · simp only [ht, if_true]
    rcases hpost : env.sitePostOutcome (createSitePath cfg) with m | u <;> simp [hpost]
  · rw [Bool.not_eq_true] at ht
    simp [ht]

theorem createPagesLoop_pages (env : MicrositeEnv) (sitePath : JStr)
    (pages : List JStr) :
    (createPagesLoop env sitePath pages).1 =
      pages.filterMap
        (fun p => ((createPage env sitePath p (capitalizeFirst p)).1).toOption) := by
  induction pages with
  | nil => rfl
  | cons p rest ih =>
    simp only [createPagesLoop, List.filterMap_cons]
    rcases h : (createPage env sitePath p (capitalizeFirst p)).1 with m | pr <;>
      simp [h, Except.toOption, ih]

theorem createPagesLoop_calls (env : MicrositeEnv) (sitePath : JStr)
    (pages : List JStr) :
    (createPagesLoop env sitePath pages).2 =
      pages.map (fun p => MsEvent.postCreate (sitePath ++ js "/" ++ p)) := by
  induction pages with
  | nil => rfl
  | cons p rest ih =>
    simp only [createPagesLoop, createPage]
    rcases hp : env.pagePostOutcome (sitePath ++ js "/" ++ p) with m2 | u2 <;>
      simp [ih]

theorem filterMap_length_lt {α β : Type} (l : List α) (f : α → Option β)
    (h : ∃ a ∈ l, f a = none) : (l.filterMap f).length < l.length := by
  induction l with
  | nil => simp at h
  | cons a rest ih =>
    rcases h with ⟨b, hb, hnone⟩
    rcases List.mem_cons.mp hb with rfl | hrest
    · simp only [List.filterMap_cons, hnone]
      have := List.length_filterMap_le f rest
      simp only [List.length_cons]
      omega
    · rcases hf : f a with _ | v
      · simp only [List.filterMap_cons, hf]
        have := List.length_filterMap_le f rest
        simp only [List.length_cons]
        omega
      · simp only [List.filterMap_cons, hf, List.length_cons]
        exact Nat.succ_lt_succ (ih ⟨b, hrest, hnone⟩)

/-- Claim C4: if the site-root creation succeeds, `createMicrosite` returns a
success result whose `pages` array contains exactly the pages whose creation
succeeded (in input order), every requested page is attempted exactly once
with no delete ever issued (no rollback), and when at least one page fails
the returned array is strictly shorter than the requested list. -/
theorem createMicrosite_partial_success (env : MicrositeEnv)
    (cfg : MicrositeConfig) (site : SiteResult)
    (hsite : (createSite env (micrositeSiteConfig cfg)).1 = .ok site) :
    ∃ res : MicrositeResult,
      (createMicrosite env cfg).1 = .ok res ∧
      res.success = true ∧
      res.pages = (cfg.pages.getD defaultPages).filterMap
        (fun p => ((createPage env site.sitePath p (capitalizeFirst p)).1).toOption) ∧
      (createMicrosite env cfg).2 =
        (createSite env (micrositeSiteConfig cfg)).2 ++
          (cfg.pages.getD defaultPages).map
            (fun p => MsEvent.postCreate (site.sitePath ++ js "/" ++ p)) ∧
      (∀ path, MsEvent.deleteNode path ∉ (createMicrosite env cfg).2) ∧
      ((∃ p ∈ cfg.pages.getD defaultPages,
          ((createPage env site.sitePath p (capitalizeFirst p)).1).toOption = none) →
        res.pages.length < (cfg.pages.getD defaultPages).length) := by
  have hpair : createSite env (micrositeSiteConfig cfg) =
      (.ok site, (createSite env (micrositeSiteConfig cfg)).2) := by
    rw [← hsite]
  have hmain : createMicrosite env cfg =
      (.ok ⟨site.success, site.sitePath, site.siteName, site.siteTitle, site.editorUrl,
        (createPagesLoop env site.sitePath (cfg.pages.getD defaultPages)).1,
        js "Microsite created with " ++
          natToJStr (createPagesLoop env site.sitePath (cfg.pages.getD defaultPages)).1.length ++
          js " pages (structure similar to /content/demo/main.html)"⟩,
       (createSite env (micrositeSiteConfig cfg)).2 ++
         (createPagesLoop env site.sitePath (cfg.pages.getD defaultPages)).2) := by
    unfold createMicrosite
    rw [hpair]
  refine ⟨_, by rw [hmain], createSite_ok_success hsite, ?_, ?_, ?_, ?_⟩
  · simp only
    exact createPagesLoop_pages env site.sitePath _
  · rw [hmain]
    simp only [createPagesLoop_calls]
  · intro path
    rw [hmain]
    simp only [List.mem_append]
    rintro (hin | hin)
    · exact createSite_no_delete env (micrositeSiteConfig cfg) path hin
    · rw [createPagesLoop_calls] at hin
      rcases List.mem_map.mp hin with ⟨p, _, hp⟩
      cases hp
  · intro hfail
    simp only
    rw [createPagesLoop_pages]
    exact filterMap_length_lt _ _ hfail

/-- Witness for C4: a concrete environment in which the site POST succeeds,
pages `main` and `contact` succeed but `about` fails; the call still
succeeds and returns two of the three requested pages. -/
theorem createMicrosite_partial_success_witness :
    ∃ res : MicrositeResult,
      (createMicrosite
        ⟨js "https://aem.example", fun _ => .ok (),
          fun p => if p = js "/content/demo/about" then .error (js "boom") else .ok ()⟩
        ⟨some (js "demo"), some (js "Demo"), none, none, none⟩).1 = .ok res ∧
      res.success = true ∧ res.pages.length = 2 ∧
      (defaultPages).length = 3 := by
  have h := createMicrosite_partial_success
    ⟨js "https://aem.example", fun _ => .ok (),
      fun p => if p = js "/content/demo/about" then .error (js "boom") else .ok ()⟩
    ⟨some (js "demo"), some (js "Demo"), none, none, none⟩
    ⟨true, js "/content/demo", js "demo", js "Demo",
      js "https://aem.example/editor.html/content/demo.html"⟩
    (by decide)
  rcases h with ⟨res, hok, hsucc, hpages, _, _, _⟩
  refine ⟨res, hok, hsucc, ?_, by decide⟩
  rw [hpages]
  decide

/-!
Asset rename (aem-asset-client.js `renameAsset`).
-/

/-- Model of `String.prototype.split` on a single separator character. -/
def splitOnChar (c : Char) : JStr → List JStr
  | [] => [[]]
  | x :: rest =>
    match splitOnChar c rest with
    | [] => [[]]
    | g :: gs => if x == c then [] :: g :: gs else (x :: g) :: gs

/-- Model of `.pop()` on a split result (last segment). -/
def jsPop (l : List JStr) : JStr := (l.getLast?).getD []

/-- Network calls issued by the asset client. -/
inductive NetCall where
  | headReq (path : JStr)
  | movePost (src dest : JStr)
  deriving DecidableEq

/-- Environment giving the outcome of each HEAD probe by path (`.error`
carries optional response status and message) and of the move POST. -/
structure RenameEnv where
  headOutcome : JStr → Except (Option Nat × JStr) Unit
  movePostOutcome : JStr → Except JStr Unit

/-- Successful result of `renameAsset`. -/
structure RenameResult where
  success : Bool
  oldPath : JStr
  newPath : JStr
  newName : JStr
  message : JStr
  deriving DecidableEq

/-- Model of `renameAsset(assetPath, newName)`: validate presence and the
`/content/dam/` root before any call; sanitize the new name to its last
path segment; probe the source (404 fails) and the destination (an existing
destination fails via the rethrown `already exists` error, a 404 or any
other ambiguous probe error continues); then issue the single move POST
(`:operation=move` with `:dest=newPath` carried in the request parameters).
All failures are rethrown as `Failed to rename asset: <msg>`. -/
def renameAsset (env : RenameEnv) (assetPath newName : JStr) :
    Except JStr RenameResult × List NetCall :=
  if assetPath.isEmpty || newName.isEmpty then
    (.error (js "Failed to rename asset: Asset path and new name are required"), [])
  else if startsWithList assetPath (js "/content/dam/") then
    let sanitizedName := jsPop (splitOnChar '/' newName)
    let parentPath := List.intercalate (js "/") ((splitOnChar '/' assetPath).dropLast)
    let newPath := parentPath ++ js "/" ++ sanitizedName
    match env.headOutcome assetPath with
    | .error e =>
      if e.1 = some 404 then
        (.error (js "Failed to rename asset: Asset not found at path: " ++ assetPath),
         [.headReq assetPath])
      else
        (.error (js "Failed to rename asset: " ++ e.2), [.headReq assetPath])
    | .ok _ =>
      let targetProbe : Except JStr Unit :=
        match env.headOutcome newPath with
        | .ok _ => .error (js "Asset already exists at target path: " ++ newPath)
        | .error e =>
          if e.1 = some 404 then .ok ()
          else if hasSub e.2 (js "already exists") then .error e.2
          else .ok ()
      match targetProbe with
      | .error m =>
        (.error (js "Failed to rename asset: " ++ m),
         [.headReq assetPath, .headReq newPath])
      | .ok _ =>
        match env.movePostOutcome assetPath with
        | .ok _ =>
          (.ok ⟨true, assetPath, newPath, sanitizedName,
            js "Asset renamed from \"" ++ jsPop (splitOnChar '/' assetPath) ++
              js "\" to \"" ++ sanitizedName ++ js "\""⟩,
           [.headReq assetPath, .headReq newPath, .movePost assetPath newPath])
        | .error m =>
          (.error (js "Failed to rename asset: " ++ m),
           [.headReq assetPath, .headReq newPath, .movePost assetPath newPath])
  else
    (.error (js "Failed to rename asset: Asset path must start with /content/dam/"), [])

/-- Claim C8: a rename whose asset path is not rooted under `/content/dam/`
fails with a validation error and issues no network call at all — no
existence probe, no move; with both arguments present the error is exactly
the path-validation message. -/
theorem renameAsset_validates_root_first (env : RenameEnv) (assetPath newName : JStr)
    (h : startsWithList assetPath (js "/content/dam/") = false) :
    (renameAsset env assetPath newName).2 = [] ∧
    (∃ m, (renameAsset env assetPath newName).1 = .error m) ∧
    (assetPath.isEmpty = false → newName.isEmpty = false →
      (renameAsset env assetPath newName).1 =
        .error (js "Failed to rename asset: Asset path must start with /content/dam/")) := by
  unfold renameAsset
  by_cases he : (assetPath.isEmpty || newName.isEmpty) = true
  · refine ⟨by simp [he],
      ⟨js "Failed to rename asset: Asset path and new name are required", by simp [he]⟩, ?_⟩
    intro h1 h2
    rw [h1, h2] at he
    simp at he
  · exact ⟨by simp [he, h],
      ⟨js "Failed to rename asset: Asset path must start with /content/dam/",
        by simp [he, h]⟩, fun _ _ => by simp [he, h]⟩

/-- Witness for C8: a concrete rename outside the asset root fails with the
validation message and an empty call trace. -/
theorem renameAsset_validates_root_first_witness :
    (renameAsset ⟨fun _ => .ok (), fun _ => .ok ()⟩ (js "/tmp/evil.png") (js "x.png")).2 = [] ∧
    (renameAsset ⟨fun _ => .ok (), fun _ => .ok ()⟩ (js "/tmp/evil.png") (js "x.png")).1 =
      .error (js "Failed to rename asset: Asset path must start with /content/dam/") := by
  have h := renameAsset_validates_root_first ⟨fun _ => .ok (), fun _ => .ok ()⟩
    (js "/tmp/evil.png") (js "x.png") (by decide)
  exact ⟨h.1, h.2.2 (by decide) (by decide)⟩

/-!
Metadata update (aem-asset-client.js `updateAssetMetadata`).  Metadata
objects reuse the `JValue` field-list representation (field lists coming
from JSON have unique keys).
-/

/-- Model of the object spread `{ ...existingMetadata, ...metadata }`:
existing entries keep their position but take the input's value when the
input has the key; input entries with fresh keys are appended. -/
def jsMergeFields (ex inp : List (JStr × JValue)) : List (JStr × JValue) :=
  ex.map (fun kv => (kv.1, (lookupField inp kv.1).getD kv.2)) ++
    inp.filter (fun kv => (lookupField ex kv.1).isNone)

/-- JS `String(value)` coercion for the values posted by the form writer:
strings pass through, numbers and booleans render, `null` renders as
`"null"` (only reachable for array elements), arrays join their elements
with commas, plain objects render as `[object Object]`. -/
def jsValToString : JValue → JStr
  | .str s => s
  | .num n => (toString n).toList
  | .boolean b => if b then js "true" else js "false"
  | .null => js "null"
  | .arr items => List.intercalate (js ",") (items.map jsValToStringShallow)
  | .obj _ => js "[object Object]"
where
  /-- One level of element coercion inside an array join. -/
  jsValToStringShallow : JValue → JStr
    | .str s => s
    | .num n => (toString n).toList
    | .boolean b => if b then js "true" else js "false"
    | .null => js ""
    | .arr _ => js ""
    | .obj _ => js "[object Object]"

/-- Form encoding of the merged metadata (the `Object.keys(...).forEach`
loop): `null` values are skipped entirely, array values append one pair per
element under the same key (is-a-set), everything else appends its string
coercion. -/
def formEncode (m : List (JStr × JValue)) : List (JStr × JStr) :=
  m.flatMap (fun kv =>
    match kv.2 with
    | .null => []
    | .arr items => items.map (fun it => (kv.1, jsValToString it))
    | v => [(kv.1, jsValToString v)])

/-- Model of the axios `validateStatus` for the metadata write:
`status < 400 || status === 412` — redirect-suppressed responses pass and a
412 precondition-failed is accepted as soft success. -/
def validateStatusUpd (status : Nat) : Bool := status < 400 || status == 412

/-- Calls issued by `updateAssetMetadata`. -/
inductive UpEvent where
  | headReq (path : JStr)
  | getMetadata (path : JStr)
  | postForm (path : JStr) (body : List (JStr × JStr))
  deriving DecidableEq

/-- Environment for one `updateAssetMetadata` call: outcome of the HEAD
probe, outcome of the metadata GET, and the HTTP status of the final POST
(network-level POST failures behave like a failing status and are not
distinguished by any claim). -/
structure UpdateEnv where
  headOutcome : Except (Option Nat × JStr) Unit
  metadataGetOutcome : Except (Option Nat × JStr) (List (JStr × JValue))
  postStatus : Nat

/-- Successful result of `updateAssetMetadata`. -/
structure UpdateResult where
  success : Bool
  assetPath : JStr
  metadata : List (JStr × JValue)
  message : JStr

/-- Model of `updateAssetMetadata(assetPath, metadata, merge)`: validate
arguments and the `/content/dam/` root, probe the asset (404 fails), read
the current metadata when merging (a 404 yields `{}`, other errors rethrow),
shallow-merge (or replace), then POST the form-encoded pairs to the metadata
node, accepting any status passing `validateStatusUpd`.  Failures are
rethrown as `Failed to update asset metadata: <msg>`. -/
def updateAssetMetadata (env : UpdateEnv) (assetPath : JStr)
    (metadata : List (JStr × JValue)) (merge : Bool) :
    Except JStr UpdateResult × List UpEvent :=
  if assetPath.isEmpty || metadata.isEmpty then
    (.error (js "Failed to update asset metadata: Asset path and metadata are required"), [])
  else if startsWithList assetPath (js "/content/dam/") then
    match env.headOutcome with
    | .error e =>
      if e.1 = some 404 then
        (.error (js "Failed to update asset metadata: Asset not found at path: " ++ assetPath),
         [.headReq assetPath])
      else
        (.error (js "Failed to update asset metadata: " ++ e.2), [.headReq assetPath])
    | .ok _ =>
      let existingRes : Except JStr (List (JStr × JValue)) :=
        if merge then
          match env.metadataGetOutcome with
          | .ok data => .ok data
          | .error e => if e.1 = some 404 then .ok [] else .error e.2
        else .ok []
      let evs := .headReq assetPath ::
        (if merge then [.getMetadata (assetPath ++ js "/jcr:content/metadata.json")] else [])
      match existingRes with
      | .error m => (.error (js "Failed to update asset metadata: " ++ m), evs)
      | .ok existing =>
        let updated := if merge then jsMergeFields existing metadata else metadata
        let evs2 := evs ++ [.postForm (assetPath ++ js "/jcr:content/metadata") (formEncode updated)]
        if validateStatusUpd env.postStatus then
          (.ok ⟨true, assetPath, updated,
            js "Metadata updated for asset: " ++ jsPop (splitOnChar '/' assetPath)⟩, evs2)
        else
          (.error (js "Failed to update asset metadata: Request failed with status code " ++
            natToJStr env.postStatus), evs2)
  else
    (.error (js "Failed to update asset metadata: Asset path must start with /content/dam/"), [])

theorem lookupField_append (l1 l2 : List (JStr × JValue)) (k : JStr) :
    lookupField (l1 ++ l2) k =
      match lookupField l1 k with
      | some v => some v
      | none => lookupField l2 k := by
  induction l1 with
  | nil => rfl
  | cons hd tl ih =>
    obtain ⟨k1, v1⟩ := hd
    by_cases hk : k1 = k
    · simp [lookupField, hk]
    · simp [lookupField, hk, ih]
theorem lookupField_map_value (ex : List (JStr × JValue))
    (g : JStr → JValue → JValue) (k : JStr) :
    lookupField (ex.map (fun kv => (kv.1, g kv.1 kv.2))) k =
      (lookupField ex k).map (g k) := by
  induction ex with
  | nil => rfl
  | cons hd tl ih =>
    obtain ⟨k1, v1⟩ := hd
    by_cases hk : k1 = k
    · subst hk
      simp [lookupField]
    · simp [lookupField, hk, ih]

theorem lookupField_filter_key (inp : List (JStr × JValue)) (p : JStr → Bool)
    (k : JStr) :
    lookupField (inp.filter (fun kv => p kv.1)) k =
      if p k then lookupField inp k else none := by
  induction inp with
  | nil => simp [lookupField]
  | cons hd tl ih =>
    obtain ⟨k1, v1⟩ := hd
    by_cases hk : k1 = k
    · subst hk
      by_cases hp : p k1 <;> simp [lookupField, List.filter_cons, hp, ih]
    · by_cases hp : p k1 <;> simp [lookupField, List.filter_cons, hp, hk, ih]

/-- Shallow-merge lookup law: the input's value wins at every key present in
the input, and the existing value survives at every other key. -/
theorem jsMergeFields_lookup (ex inp : List (JStr × JValue)) (k : JStr) :
    lookupField (jsMergeFields ex inp) k =
      match lookupField inp k with
      | some v => some v
      | none => lookupField ex k := by
  unfold jsMergeFields
  rw [lookupField_append,
    lookupField_map_value ex (fun k1 v1 => (lookupField inp k1).getD v1) k,
    lookupField_filter_key inp (fun k1 => (lookupField ex k1).isNone) k]
  rcases hex : lookupField ex k with _ | v
  · simp only [hex, Option.map_none', Option.isNone_none, if_true]
    rcases hin : lookupField inp k with _ | w <;> simp [hex]
  · simp only [hex, Option.map_some']
    rcases hin : lookupField inp k with _ | w <;> simp [hex]

/-- Counterexample to C9 as stated: with merge=true over existing metadata
`dc:description: "old"` and input `dc:description: null`, the shallow merge
assigns `null` to the key, but the form-encoded write skips null values
entirely — the POST body is empty, so the remote node is left with its old
value instead of the merged one. -/
theorem updateAssetMetadata_null_counterexample :
    jsMergeFields [(js "dc:description", .str (js "old"))]
      [(js "dc:description", JValue.null)] = [(js "dc:description", JValue.null)] ∧
    formEncode [(js "dc:description", JValue.null)] = [] ∧
    (updateAssetMetadata ⟨.ok (), .ok [(js "dc:description", .str (js "old"))], 200⟩
      (js "/content/dam/a.png") [(js "dc:description", JValue.null)] true).2 =
      [.headReq (js "/content/dam/a.png"),
       .getMetadata (js "/content/dam/a.png/jcr:content/metadata.json"),
       .postForm (js "/content/dam/a.png/jcr:content/metadata") []] := by
  exact ⟨rfl, rfl, rfl⟩

/-- Claim C9 (amended): with merge=true and a successful flow, the write
posts exactly the form encoding of the shallow merge (input keys override
existing keys; null-valued entries are omitted from the write), array values
keep is-a-set semantics by appending one pair per element under the same
key, and the write treats HTTP 412 as soft success (while, say, 409 fails). -/
theorem updateAssetMetadata_merge_spec (env : UpdateEnv) (assetPath : JStr)
    (metadata existing : List (JStr × JValue))
    (hne : assetPath.isEmpty = false) (hmeta : metadata.isEmpty = false)
    (hpath : startsWithList assetPath (js "/content/dam/") = true)
    (hhead : env.headOutcome = .ok ())
    (hget : env.metadataGetOutcome = .ok existing)
    (hstatus : validateStatusUpd env.postStatus = true) :
    (updateAssetMetadata env assetPath metadata true).1 =
      .ok ⟨true, assetPath, jsMergeFields existing metadata,
        js "Metadata updated for asset: " ++ jsPop (splitOnChar '/' assetPath)⟩ ∧
    (updateAssetMetadata env assetPath metadata true).2 =
      [.headReq assetPath, .getMetadata (assetPath ++ js "/jcr:content/metadata.json"),
       .postForm (assetPath ++ js "/jcr:content/metadata")
         (formEncode (jsMergeFields existing metadata))] ∧
    (∀ k, lookupField (jsMergeFields existing metadata) k =
      match lookupField metadata k with
      | some v => some v
      | none => lookupField existing k) ∧
    (∀ k items rest, formEncode ((k, JValue.arr items) :: rest) =
      items.map (fun it => (k, jsValToString it)) ++ formEncode rest) ∧
    (∀ k rest, formEncode ((k, JValue.null) :: rest) = formEncode rest) ∧
    validateStatusUpd 412 = true ∧ validateStatusUpd 409 = false := by
  refine ⟨?_, ?_, fun k => jsMergeFields_lookup existing metadata k,
    fun k items rest => by simp [formEncode],
    fun k rest => by simp [formEncode], by decide, by decide⟩
  · unfold updateAssetMetadata
    simp [hne, hmeta, hpath, hhead, hget, hstatus]
  · unfold updateAssetMetadata
    simp [hne, hmeta, hpath, hhead, hget, hstatus]

/-- Witness for C9 (amended): a concrete merge in which the input overrides
`dc:title`, the existing array field keeps one form pair per element, and
the POST status is the soft-success 412. -/
theorem updateAssetMetadata_merge_spec_witness :
    (updateAssetMetadata
      ⟨.ok (), .ok [(js "dc:title", .str (js "Old")),
        (js "tags", .arr [.str (js "a"), .str (js "b")])], 412⟩
      (js "/content/dam/a.png") [(js "dc:title", .str (js "New"))] true).2 =
      [.headReq (js "/content/dam/a.png"),
       .getMetadata (js "/content/dam/a.png/jcr:content/metadata.json"),
       .postForm (js "/content/dam/a.png/jcr:content/metadata")
         [(js "dc:title", js "New"), (js "tags", js "a"), (js "tags", js "b")]] := by
  have h := updateAssetMetadata_merge_spec
    ⟨.ok (), .ok [(js "dc:title", .str (js "Old")),
      (js "tags", .arr [.str (js "a"), .str (js "b")])], 412⟩
    (js "/content/dam/a.png") [(js "dc:title", .str (js "New"))]
    [(js "dc:title", .str (js "Old")), (js "tags", .arr [.str (js "a"), .str (js "b")])]
    (by decide) (by decide) (by decide) rfl rfl (by decide)
  exact h.2.1.trans rfl

/-!
Protocol adapter failure mapping (index.js `handleMcpRequest` and `main`).
-/

/-- Outcome of one invocation as seen inside the `try` block of
`handleMcpRequest`: the body parse can throw, the protocol exchange can
throw, or the exchange completes and `res.getResult()` is returned. -/
inductive McpOutcome where
  | parseFailure (msg : JStr)
  | exchangeFailure (msg : JStr)
  | completed (statusCode : Nat) (body : JStr)

/-- HTTP-level result of the adapter: either the buffered exchange result or
a JSON-RPC error envelope with a given code, message and a flag recording
whether the envelope's `data` field (stack and name) is populated. -/
inductive AdapterResult where
  | plain (statusCode : Nat) (body : JStr)
  | rpcError (statusCode : Nat) (code : Int) (message : JStr) (hasStackData : Bool)
  deriving DecidableEq

/-- Model of `handleMcpRequest(params)`.  On a thrown parse or exchange
error, control enters the catch block, whose first statement builds
`errorDetails` from `req.body`; but `req` is a `const` declared inside the
`try` block and is not in scope in the catch block, so evaluating it raises
`ReferenceError: req is not defined` out of `handleMcpRequest` before the
intended `-32603` envelope (with its `LOG_LEVEL === 'debug'` stack payload)
can be built.  The log-level parameter is therefore unused on this path. -/
def handleMcpRequest (_logLevel : Option JStr) (outcome : McpOutcome) :
    Except JStr AdapterResult :=
  match outcome with
  | .completed status body => .ok (.plain status body)
  | .parseFailure _ => .error (js "req is not defined")
  | .exchangeFailure _ => .error (js "req is not defined")

/-- Model of the POST arm of `main(params)`: delegate to `handleMcpRequest`
and map any escaped exception to the outer 500 envelope
`Unhandled server error: <message>` with code `-32603` and no `data`
field. -/
def mainPost (logLevel : Option JStr) (outcome : McpOutcome) : AdapterResult :=
  match handleMcpRequest logLevel outcome with
  | .ok r => r
  | .error m => .rpcError 500 (-32603) (js "Unhandled server error: " ++ m) false

/-- Claim C7 evaluated at the failing inputs: a parse failure or an exchange
failure still yields HTTP 500 with a JSON-RPC `-32603` envelope, but the
envelope is the outer `Unhandled server error: req is not defined` one, and
the `data` stack payload is absent even when `LOG_LEVEL=debug` — the catch
block that would attach it crashes on the out-of-scope `req`. -/
theorem handleMcpRequest_catch_scope_bug :
    mainPost (some (js "debug"))
        (.parseFailure (js "Failed to parse request body: Unexpected token")) =
      .rpcError 500 (-32603) (js "Unhandled server error: req is not defined") false ∧
    mainPost (some (js "debug")) (.exchangeFailure (js "boom")) =
      .rpcError 500 (-32603) (js "Unhandled server error: req is not defined") false ∧
    mainPost none (.parseFailure (js "Failed to parse request body: x")) =
      .rpcError 500 (-32603) (js "Unhandled server error: req is not defined") false := by
  exact ⟨rfl, rfl, rfl⟩

/-!
Heap model for `replaceValuesInMetadata`'s aliasing behaviour (C10).
JS objects and arrays are heap references; strings and primitives are
values.  A store is a list of heap cells addressed by position; allocation
appends a cell, so pre-existing addresses are never written.
-/

/-- JS runtime values: primitives are immutable values, objects and arrays
are references into the store. -/
inductive HVal where
  | str (s : JStr)
  | num (n : Int)
  | boolean (b : Bool)
  | null
  | ref (addr : Nat)
  deriving DecidableEq

/-- Heap cells: an array of values or an object of key/value fields. -/
inductive HObj where
  | arr (items : List HVal)
  | obj (fields : List (JStr × HVal))
  deriving DecidableEq

/-- The store: cell `a` lives at position `a`. -/
abbrev Store := List HObj

/-- Allocation (`{}` / `.map(...)` building a fresh object or array):
append a cell and return its fresh address. -/
def alloc (σ : Store) (o : HObj) : Store × Nat := (σ ++ [o], σ.length)

/-- Store extension: the second store adds cells after the first. -/
def storeExt (σ σ' : Store) : Prop := ∃ t, σ' = σ ++ t

/-- Element treatment inside the `Array.isArray` branch: string elements are
rewritten as values; every other element — numbers, booleans, nulls and
references (to nested arrays or objects) — is returned as-is, so references
are carried over unchanged. -/
def replaceArrayItemH (sv rv : JStr) : HVal → HVal
  | .str s => .str (replaceGI sv rv s)
  | v => v

/-- Store-threading map over an object's fields, applying `f` to each value
left to right (the `for ... of Object.entries` loop writing into the fresh
`replaced` object). -/
def storeMapFields (f : Store → HVal → Store × HVal) (σ : Store)
    (fields : List (JStr × HVal)) : Store × List (JStr × HVal) :=
  fields.foldl
    (fun acc kv =>
      let r := f acc.1 kv.2
      (r.1, acc.2 ++ [(kv.1, r.2)]))
    (σ, [])

/-- Heap model of one object-entry value inside `replaceValuesInMetadata`:
strings are rewritten, an array reference is replaced by a reference to a
freshly allocated array of element-wise-treated values, a non-null object
reference is recursed into (allocating a fresh object; one fuel unit per
object-nesting level, any fuel at least the nesting depth gives the JS
behaviour), and all other values are kept as-is. -/
def replEntryValH (sv rv : JStr) : Nat → Store → HVal → Store × HVal
  | _, σ, .str s => (σ, .str (replaceGI sv rv s))
  | fuel, σ, .ref a =>
    (match σ[a]?, fuel with
     | some (.arr items), _ =>
       let r := alloc σ (.arr (items.map (replaceArrayItemH sv rv)))
       (r.1, .ref r.2)
     | some (.obj _), 0 => (σ, .ref a)
     | some (.obj fields), fuel' + 1 =>
       let r := storeMapFields (replEntryValH sv rv fuel') σ fields
       let r2 := alloc r.1 (.obj r.2)
       (r2.1, .ref r2.2)
     | none, _ => (σ, .ref a))
  | _, σ, v => (σ, v)

/-- Heap model of `replaceValuesInMetadata(metadata, ...)`: a non-reference
argument is returned unchanged by the `typeof` guard; an object reference
has its entries processed into a freshly allocated object; a (never actually
passed) top-level array reference is enumerated by `Object.entries` into an
index-keyed fresh object. -/
def replaceValuesInMetadataH (sv rv : JStr) (fuel : Nat) (σ : Store)
    (v : HVal) : Store × HVal :=
  match v with
  | .ref a =>
    (match σ[a]? with
     | some (.obj fields) =>
       let r := storeMapFields (replEntryValH sv rv fuel) σ fields
       let r2 := alloc r.1 (.obj r.2)
       (r2.1, .ref r2.2)
     | some (.arr items) =>
       let entries := ((List.range items.length).zip items).map
         (fun p => ((toString p.1).toList, p.2))
       let r := storeMapFields (replEntryValH sv rv fuel) σ entries
       let r2 := alloc r.1 (.obj r.2)
       (r2.1, .ref r2.2)
     | none => (σ, v))
  | _ => (σ, v)

theorem storeExt_refl (σ : Store) : storeExt σ σ := ⟨[], by simp⟩

theorem storeExt_trans {σ1 σ2 σ3 : Store} (h1 : storeExt σ1 σ2)
    (h2 : storeExt σ2 σ3) : storeExt σ1 σ3 := by
  rcases h1 with ⟨t1, rfl⟩
  rcases h2 with ⟨t2, rfl⟩
  exact ⟨t1 ++ t2, by simp⟩

theorem storeExt_alloc (σ : Store) (o : HObj) : storeExt σ (alloc σ o).1 :=
  ⟨[o], rfl⟩

theorem getElem?_of_storeExt {σ σ' : Store} (h : storeExt σ σ') {a : Nat}
    (ha : a < σ.length) : σ'[a]? = σ[a]? := by
  rcases h with ⟨t, rfl⟩
  rw [List.getElem?_append]
  simp [ha]

theorem length_le_of_storeExt {σ σ' : Store} (h : storeExt σ σ') :
    σ.length ≤ σ'.length := by
  rcases h with ⟨t, rfl⟩
  simp

theorem storeMapFields_ext (f : Store → HVal → Store × HVal)
    (hf : ∀ σ v, storeExt σ (f σ v).1) (σ : Store)
    (fields : List (JStr × HVal)) :
    storeExt σ (storeMapFields f σ fields).1 := by
  suffices hgen : ∀ (fs : List (JStr × HVal)) (acc : Store × List (JStr × HVal)),
      storeExt acc.1 ((fs.foldl
        (fun acc kv =>
          let r := f acc.1 kv.2
          (r.1, acc.2 ++ [(kv.1, r.2)])) acc)).1 by
    exact hgen fields (σ, [])
  intro fs
  induction fs with
  | nil => exact fun acc => storeExt_refl acc.1
  | cons kv rest ih =>
    intro acc
    exact storeExt_trans (hf acc.1 kv.2) (ih _)

theorem replEntryValH_ext (sv rv : JStr) :
    ∀ (fuel : Nat) (σ : Store) (v : HVal),
      storeExt σ (replEntryValH sv rv fuel σ v).1 := by
  intro fuel
  induction fuel with
  | zero =>
    intro σ v
    cases v with
    | str s => exact storeExt_refl σ
    | num n => exact storeExt_refl σ
    | boolean b => exact storeExt_refl σ
    | null => exact storeExt_refl σ
    | ref a =>
      simp only [replEntryValH.eq_def]
      rcases hc : σ[a]? with _ | o
      · exact storeExt_refl σ
      · cases o with
        | arr items => exact storeExt_alloc σ _
        | obj fields => exact storeExt_refl σ
  | succ fuel' ih =>
    intro σ v
    cases v with
    | str s => exact storeExt_refl σ
    | num n => exact storeExt_refl σ
    | boolean b => exact storeExt_refl σ
    | null => exact storeExt_refl σ
    | ref a =>
      simp only [replEntryValH.eq_def]
      rcases hc : σ[a]? with _ | o
      · exact storeExt_refl σ
      · cases o with
        | arr items => exact storeExt_alloc σ _
        | obj fields =>
          exact storeExt_trans
            (storeMapFields_ext (replEntryValH sv rv fuel') (fun σ' v' => ih σ' v') σ fields)
            (storeExt_alloc _ _)

theorem replaceValuesInMetadataH_ext (sv rv : JStr) (fuel : Nat) (σ : Store)
    (v : HVal) : storeExt σ (replaceValuesInMetadataH sv rv fuel σ v).1 := by
  cases v with
  | str s => exact storeExt_refl σ
  | num n => exact storeExt_refl σ
  | boolean b => exact storeExt_refl σ
  | null => exact storeExt_refl σ
  | ref a =>
    simp only [replaceValuesInMetadataH.eq_def]
    rcases hc : σ[a]? with _ | o
    · exact storeExt_refl σ
    · cases o with
      | arr items =>
        exact storeExt_trans
          (storeMapFields_ext (replEntryValH sv rv fuel)
            (fun σ' v' => replEntryValH_ext sv rv fuel σ' v') σ _)
          (storeExt_alloc _ _)
      | obj fields =>
        exact storeExt_trans
          (storeMapFields_ext (replEntryValH sv rv fuel)
            (fun σ' v' => replEntryValH_ext sv rv fuel σ' v') σ fields)
          (storeExt_alloc _ _)

/-- Counterexample to C10 as stated: the result is not fresh "at every
level".  For a store holding the object `(address 0) b: "x"`, the array
`(address 1) [ref 0]` and the metadata object `(address 2) a: ref 1`,
processing address 2 allocates a fresh array (address 3) and a fresh result
object (address 4) — but the fresh array's element is still `ref 0`, the
very object owned by the input, aliased rather than copied (and left
unprocessed).  The pre-existing cells 0-2 are unchanged, so the no-mutation
half of the claim holds here. -/
theorem replaceValuesInMetadataH_aliasing_counterexample :
    replaceValuesInMetadataH (js "x") (js "y") 5
      [HObj.obj [(js "b", .str (js "x"))], HObj.arr [.ref 0],
        HObj.obj [(js "a", .ref 1)]]
      (.ref 2) =
      ([HObj.obj [(js "b", .str (js "x"))], HObj.arr [.ref 0],
        HObj.obj [(js "a", .ref 1)],
        HObj.arr [.ref 0], HObj.obj [(js "a", .ref 3)]], .ref 4) := rfl

/-- Claim C10 (amended): `replaceValuesInMetadata` never mutates its input —
every pre-existing store cell reads back unchanged after the call — and
returns a freshly allocated object for an object argument; array-valued
entries get a freshly allocated array container, but the elements of that
container other than strings (including references to objects and arrays
nested inside the array) are carried over by reference, aliasing the
input's sub-structures instead of being fresh copies. -/
theorem replaceValuesInMetadataH_frame_and_fresh (sv rv : JStr) (fuel : Nat)
    (σ : Store) (v : HVal) :
    (∀ a, a < σ.length →
      ((replaceValuesInMetadataH sv rv fuel σ v).1)[a]? = σ[a]?) ∧
    (∀ a fields, v = .ref a → σ[a]? = some (.obj fields) →
      ∃ addr, (replaceValuesInMetadataH sv rv fuel σ v).2 = .ref addr ∧
        σ.length ≤ addr) ∧
    (∀ a items, σ[a]? = some (.arr items) →
      replEntryValH sv rv fuel σ (.ref a) =
        (σ ++ [.arr (items.map (replaceArrayItemH sv rv))], .ref σ.length)) ∧
    (∀ adr, replaceArrayItemH sv rv (.ref adr) = .ref adr) := by
  refine ⟨fun a ha =>
      getElem?_of_storeExt (replaceValuesInMetadataH_ext sv rv fuel σ v) ha,
    ?_, ?_, fun adr => rfl⟩
  · intro a fields hv hc
    subst hv
    refine ⟨(storeMapFields (replEntryValH sv rv fuel) σ fields).1.length, ?_, ?_⟩
    · simp only [replaceValuesInMetadataH.eq_def, hc]
      rfl
    · exact length_le_of_storeExt
        (storeMapFields_ext (replEntryValH sv rv fuel)
          (fun σ' v' => replEntryValH_ext sv rv fuel σ' v') σ fields)
  · intro a items hc
    cases fuel <;> simp only [replEntryValH.eq_def, hc] <;> rfl

/-- Witness for C10 (amended) at a concrete three-cell store. -/
theorem replaceValuesInMetadataH_frame_and_fresh_witness :
    ((replaceValuesInMetadataH (js "x") (js "y") 5
      [HObj.obj [(js "b", .str (js "x"))], HObj.arr [.ref 0],
        HObj.obj [(js "a", .ref 1)]] (.ref 2)).1)[0]? =
      some (HObj.obj [(js "b", .str (js "x"))]) ∧
    (∃ addr, (replaceValuesInMetadataH (js "x") (js "y") 5
      [HObj.obj [(js "b", .str (js "x"))], HObj.arr [.ref 0],
        HObj.obj [(js "a", .ref 1)]] (.ref 2)).2 = .ref addr ∧ 3 ≤ addr) := by
  have h := replaceValuesInMetadataH_frame_and_fresh (js "x") (js "y") 5
    [HObj.obj [(js "b", .str (js "x"))], HObj.arr [.ref 0],
      HObj.obj [(js "a", .ref 1)]] (.ref 2)
  exact ⟨(h.1 0 (by decide)).trans rfl,
    h.2.1 2 [(js "a", .ref 1)] rfl rfl⟩
